import Mathlib

/-!
Verification of the sparse SGD linear-model orchestration layer
(`scikits/learn/linear_model/sparse/stochastic_gradient.py`).

Numbers: float64 values are modelled as rationals (`ℚ`), int32 index arrays
as `ℕ`, the int seed as `ℤ`.  The external compiled kernel `plain_sgd` is not
part of the repository's sources; following the specification it is modelled
as an abstract pure function from its argument list to
(updated weights, updated intercept).
-/

/-- Compressed-row sparse matrix: the three parallel arrays `data`
(nonzero values), `indices` (column index per nonzero) and `indptr`
(row-start offsets, length `n_rows + 1`), plus the stored shape.
Models `scipy.sparse.csr_matrix`. -/
structure CSR where
  data : List ℚ
  indices : List ℕ
  indptr : List ℕ
  shape : ℕ × ℕ
  deriving Repr, DecidableEq

/-- Sparsify one dense row starting at column offset `k`:
keep the (column, value) pairs of the nonzero entries, in column order. -/
def sparsifyRowAux (k : ℕ) : List ℚ → List (ℕ × ℚ)
  | [] => []
  | x :: xs =>
      if x = 0 then sparsifyRowAux (k + 1) xs
      else (k, x) :: sparsifyRowAux (k + 1) xs

/-- Sparsify one dense row: the (column, value) pairs of its nonzeros. -/
def sparsifyRow (r : List ℚ) : List (ℕ × ℚ) := sparsifyRowAux 0 r

/-- The `indptr` array of the CSR encoding of a dense matrix:
cumulative counts of nonzeros per row, starting at 0. -/
def csrIndptr : List (List ℚ) → List ℕ
  | [] => [0]
  | r :: rest => 0 :: (csrIndptr rest).map (· + (sparsifyRow r).length)

/-- `scipy.sparse.csr_matrix` built from a dense matrix (list of rows):
row-major enumeration of the nonzero entries. -/
def csrFromDense (A : List (List ℚ)) : CSR where
  data := (A.map (fun r => (sparsifyRow r).map Prod.snd)).flatten
  indices := (A.map (fun r => (sparsifyRow r).map Prod.fst)).flatten
  indptr := csrIndptr A
  shape := (A.length, (A.headD []).length)

/-- The (column, value) pairs of row `s` of a CSR matrix, read off the
three arrays through `indptr` as scipy does. -/
def rowPairs (m : CSR) (s : ℕ) : List (ℕ × ℚ) :=
  let a := m.indptr.getD s 0
  let b := m.indptr.getD (s + 1) 0
  ((m.indices.drop a).take (b - a)).zip ((m.data.drop a).take (b - a))

/-- Value of a sparse row at column `j` (duplicate column entries sum,
as in scipy's densification). -/
def valueAt : List (ℕ × ℚ) → ℕ → ℚ
  | [], _ => 0
  | p :: ps, j => if p.1 = j then p.2 + valueAt ps j else valueAt ps j

/-- `todense` of a CSR matrix, using its stored shape. -/
def csrToDense (m : CSR) : List (List ℚ) :=
  (List.range m.shape.1).map (fun s =>
    (List.range m.shape.2).map (fun j => valueAt (rowPairs m s) j))

/-- Dot product of a sparse row with a sparse row:
`Σ value * (other row's value at the same column)`.  Models one entry of
`np.dot` between two compressed-row matrices. -/
def sDot (xs ws : List (ℕ × ℚ)) : ℚ :=
  (xs.map (fun p => p.2 * valueAt ws p.1)).sum

/-- Dense dot product of two equally long rows. -/
def denseDot (x w : List ℚ) : ℚ :=
  ((x.zip w).map (fun p => p.1 * p.2)).sum

-- ### Basic lemmas about the sparse row encoding

theorem sparsifyRowAux_mem_ge (r : List ℚ) :
    ∀ k p, p ∈ sparsifyRowAux k r → k ≤ p.1 := by
  induction r with
  | nil => intro k p h; simp [sparsifyRowAux] at h
  | cons x xs ih =>
      intro k p h
      by_cases hx : x = 0
      · simp [sparsifyRowAux, hx] at h
        exact Nat.le_of_succ_le (ih (k + 1) p h)
      · simp [sparsifyRowAux, hx] at h
        rcases h with h | h
        · subst h; exact Nat.le_refl k
        · exact Nat.le_of_succ_le (ih (k + 1) p h)

theorem valueAt_eq_zero_of_forall_ne (ps : List (ℕ × ℚ)) (j : ℕ)
    (h : ∀ p ∈ ps, p.1 ≠ j) : valueAt ps j = 0 := by
  induction ps with
  | nil => rfl
  | cons q qs ih =>
      have hq : q.1 ≠ j := h q (List.mem_cons_self q qs)
      have hqs : valueAt qs j = 0 := ih (fun p hp => h p (List.mem_cons_of_mem q hp))
      simp [valueAt, hq, hqs]

theorem valueAt_sparsifyRowAux_lt (r : List ℚ) (k j : ℕ) (hj : j < k) :
    valueAt (sparsifyRowAux k r) j = 0 := by
  apply valueAt_eq_zero_of_forall_ne
  intro p hp
  have := sparsifyRowAux_mem_ge r k p hp
  omega

theorem valueAt_sparsifyRowAux (r : List ℚ) :
    ∀ k j, valueAt (sparsifyRowAux k r) (k + j) = r.getD j 0 := by
  induction r with
  | nil => intro k j; simp [sparsifyRowAux, valueAt]
  | cons x xs ih =>
      intro k j
      have h0 : valueAt (sparsifyRowAux (k + 1) xs) k = 0 :=
        valueAt_sparsifyRowAux_lt xs (k + 1) k (Nat.lt_succ_self k)
      by_cases hx : x = 0
      · cases j with
        | zero => simp [sparsifyRowAux, hx, h0]
        | succ j' =>
            have hk : k + (j' + 1) = (k + 1) + j' := by omega
            simp only [sparsifyRowAux, if_pos hx, hk, ih (k + 1) j']
            rfl
      · cases j with
        | zero => simp [sparsifyRowAux, hx, valueAt, h0]
        | succ j' =>
            have hne : k ≠ k + 1 + j' := by omega
            have hk : k + (j' + 1) = (k + 1) + j' := by omega
            simp only [sparsifyRowAux, if_neg hx, valueAt, hk,
              ih (k + 1) j', if_neg hne]
            rfl

theorem valueAt_sparsifyRow (r : List ℚ) (j : ℕ) :
    valueAt (sparsifyRow r) j = r.getD j 0 := by
  have := valueAt_sparsifyRowAux r 0 j
  simpa [sparsifyRow] using this

theorem csrIndptr_length (A : List (List ℚ)) :
    (csrIndptr A).length = A.length + 1 := by
  induction A with
  | nil => rfl
  | cons r rest ih => simp [csrIndptr, ih]

theorem csrIndptr_head (A : List (List ℚ)) : (csrIndptr A).getD 0 0 = 0 := by
  cases A <;> rfl

theorem zip_map_fst_snd_pairs (l : List (ℕ × ℚ)) :
    (l.map Prod.fst).zip (l.map Prod.snd) = l := by
  induction l with
  | nil => rfl
  | cons x xs ih => simp [ih]

theorem getD_map_add_nat (l : List ℕ) (L s : ℕ) (h : s < l.length) :
    (l.map (· + L)).getD s 0 = l.getD s 0 + L := by
  simp [List.getD_eq_getElem?_getD, List.getElem?_map, h, List.getElem?_eq_getElem]

/-- Reading row `s` of the CSR encoding of a dense matrix through `indptr`
recovers exactly the sparsified row `s` of the dense matrix. -/
theorem rowPairs_csrFromDense (A : List (List ℚ)) :
    ∀ s, rowPairs (csrFromDense A) s = sparsifyRow (A.getD s []) := by
  induction A with
  | nil =>
      intro s
      simp [rowPairs, csrFromDense, csrIndptr, sparsifyRow, sparsifyRowAux]
  | cons r rest ih =>
      intro s
      have hdata : (csrFromDense (r :: rest)).data =
          (sparsifyRow r).map Prod.snd ++ (csrFromDense rest).data := by
        simp [csrFromDense]
      have hindices : (csrFromDense (r :: rest)).indices =
          (sparsifyRow r).map Prod.fst ++ (csrFromDense rest).indices := by
        simp [csrFromDense]
      have hindptr : (csrFromDense (r :: rest)).indptr =
          0 :: (csrIndptr rest).map (· + (sparsifyRow r).length) := by
        simp [csrFromDense, csrIndptr]
      have hlenIdx : ((sparsifyRow r).map Prod.fst).length = (sparsifyRow r).length :=
        List.length_map _ _
      have hlenData : ((sparsifyRow r).map Prod.snd).length = (sparsifyRow r).length :=
        List.length_map _ _
      cases s with
      | zero =>
          have h0 : 0 < (csrIndptr rest).length := by
            rw [csrIndptr_length]; omega
          have hb : ((csrIndptr rest).map (· + (sparsifyRow r).length)).getD 0 0 =
              (sparsifyRow r).length := by
            rw [getD_map_add_nat _ _ _ h0, csrIndptr_head]
            omega
          simp only [rowPairs, hdata, hindices, hindptr, List.getD_cons_zero,
            List.getD_cons_succ, hb, List.drop_zero, Nat.sub_zero]
          rw [← hlenIdx, List.take_left, hlenIdx, ← hlenData, List.take_left]
          rw [zip_map_fst_snd_pairs]
      | succ s =>
          by_cases hs : s < (csrIndptr rest).length
          · have ha : ((csrIndptr rest).map (· + (sparsifyRow r).length)).getD s 0 =
                (csrIndptr rest).getD s 0 + (sparsifyRow r).length :=
              getD_map_add_nat _ _ _ hs
            by_cases hs1 : s + 1 < (csrIndptr rest).length
            · have hb : ((csrIndptr rest).map (· + (sparsifyRow r).length)).getD (s + 1) 0 =
                  (csrIndptr rest).getD (s + 1) 0 + (sparsifyRow r).length :=
                getD_map_add_nat _ _ _ hs1
              have hsub : (csrIndptr rest).getD (s + 1) 0 + (sparsifyRow r).length -
                  ((csrIndptr rest).getD s 0 + (sparsifyRow r).length) =
                  (csrIndptr rest).getD (s + 1) 0 - (csrIndptr rest).getD s 0 := by
                omega
              have hdropI : ((sparsifyRow r).map Prod.fst ++ (csrFromDense rest).indices).drop
                  ((csrIndptr rest).getD s 0 + (sparsifyRow r).length) =
                  (csrFromDense rest).indices.drop ((csrIndptr rest).getD s 0) := by
                rw [Nat.add_comm, ← hlenIdx, List.drop_append]
              have hdropD : ((sparsifyRow r).map Prod.snd ++ (csrFromDense rest).data).drop
                  ((csrIndptr rest).getD s 0 + (sparsifyRow r).length) =
                  (csrFromDense rest).data.drop ((csrIndptr rest).getD s 0) := by
                rw [Nat.add_comm, ← hlenData, List.drop_append]
              have hip : (csrFromDense rest).indptr = csrIndptr rest := rfl
              have hres := ih s
              simp only [rowPairs, hip] at hres
              simp only [rowPairs, hdata, hindices, hindptr, List.getD_cons_succ,
                ha, hb, hsub, hdropI, hdropD]
              exact hres
            · -- `s + 1` indexes past `indptr` of `rest`: both sides are empty rows
              have hb : ((csrIndptr rest).map (· + (sparsifyRow r).length)).getD (s + 1) 0 = 0 := by
                apply List.getD_eq_default
                rw [List.length_map]
                omega
              have hs' : s = rest.length := by
                have := csrIndptr_length rest
                omega
              have hrhs : (r :: rest).getD (s + 1) [] = [] := by
                apply List.getD_eq_default
                simp
                omega
              simp only [rowPairs, hindptr, List.getD_cons_succ, hb, hrhs,
                Nat.zero_sub, List.take_zero, List.zip_nil_left]
              rfl
          · have hlen := csrIndptr_length rest
            have ha : ((csrIndptr rest).map (· + (sparsifyRow r).length)).getD s 0 = 0 := by
              apply List.getD_eq_default
              rw [List.length_map]
              omega
            have hb : ((csrIndptr rest).map (· + (sparsifyRow r).length)).getD (s + 1) 0 = 0 := by
              apply List.getD_eq_default
              rw [List.length_map]
              omega
            have hrhs : (r :: rest).getD (s + 1) [] = [] := by
              apply List.getD_eq_default
              simp
              omega
            simp only [rowPairs, hindptr, List.getD_cons_succ, ha, hb, hrhs,
              Nat.sub_zero, List.take_zero, List.zip_nil_left]
            rfl

theorem range_map_cons (g : ℕ → α) (n : ℕ) :
    (List.range (n + 1)).map g = g 0 :: (List.range n).map (fun j => g (j + 1)) := by
  rw [List.range_succ_eq_map, List.map_cons, List.map_map]
  rfl

theorem range_map_getD {α β : Type} (l : List α) (d : α) (f : α → β) :
    (List.range l.length).map (fun s => f (l.getD s d)) = l.map f := by
  induction l with
  | nil => rfl
  | cons x xs ih =>
      rw [List.length_cons, range_map_cons]
      simp only [List.getD_cons_zero, List.getD_cons_succ, List.map_cons]
      rw [ih]

theorem map_range_getD (r : List ℚ) :
    (List.range r.length).map (fun j => r.getD j 0) = r := by
  have := range_map_getD r 0 id
  simpa using this

/-- Densifying the CSR encoding of a rectangular dense matrix recovers the
matrix exactly (the round-trip invariant behind `sparse_coef_`). -/
theorem csrToDense_csrFromDense (A : List (List ℚ))
    (hrect : ∀ r ∈ A, r.length = (A.headD []).length) :
    csrToDense (csrFromDense A) = A := by
  have hshape : (csrFromDense A).shape = (A.length, (A.headD []).length) := rfl
  unfold csrToDense
  rw [hshape]
  simp only [rowPairs_csrFromDense, valueAt_sparsifyRow]
  rw [range_map_getD A [] (fun r => (List.range (A.headD []).length).map
    (fun j => r.getD j 0))]
  conv_rhs => rw [← List.map_id A]
  apply List.map_congr_left
  intro r hr
  rw [← hrect r hr, map_range_getD]
  rfl

theorem sDot_sparsifyRowAux (x : List ℚ) :
    ∀ k ws, ((sparsifyRowAux k x).map (fun p => p.2 * valueAt ws p.1)).sum =
      ((List.range x.length).map (fun j => x.getD j 0 * valueAt ws (k + j))).sum := by
  induction x with
  | nil => intro k ws; rfl
  | cons x0 xs ih =>
      intro k ws
      rw [List.length_cons, range_map_cons]
      simp only [List.getD_cons_zero, List.getD_cons_succ]
      have hshift : ((List.range xs.length).map
          (fun j => xs.getD j 0 * valueAt ws (k + (j + 1)))).sum =
          ((List.range xs.length).map
          (fun j => xs.getD j 0 * valueAt ws ((k + 1) + j))).sum := by
        apply congrArg
        apply List.map_congr_left
        intro j _
        have : k + (j + 1) = (k + 1) + j := by omega
        rw [this]
      have hunfold : sparsifyRowAux k (x0 :: xs) =
          if x0 = 0 then sparsifyRowAux (k + 1) xs
          else (k, x0) :: sparsifyRowAux (k + 1) xs := rfl
      by_cases hx : x0 = 0
      · rw [hunfold, if_pos hx, ih (k + 1) ws, ← hshift, hx]
        simp
      · rw [hunfold, if_neg hx]
        simp only [List.map_cons, List.sum_cons]
        rw [ih (k + 1) ws, ← hshift]
        simp

theorem sDot_sparsifyRow (x : List ℚ) (ws : List (ℕ × ℚ)) :
    sDot (sparsifyRow x) ws =
      ((List.range x.length).map (fun j => x.getD j 0 * valueAt ws j)).sum := by
  have := sDot_sparsifyRowAux x 0 ws
  simpa [sDot, sparsifyRow] using this

theorem denseDot_eq_range_sum (x : List ℚ) :
    ∀ w, x.length = w.length →
      ((List.range x.length).map (fun j => x.getD j 0 * w.getD j 0)).sum =
        denseDot x w := by
  induction x with
  | nil => intro w _; rfl
  | cons x0 xs ih =>
      intro w hw
      cases w with
      | nil => simp at hw
      | cons w0 wsl =>
          rw [List.length_cons, range_map_cons]
          simp only [List.getD_cons_zero, List.getD_cons_succ, List.sum_cons]
          have hlen : xs.length = wsl.length := by
            simpa using hw
          rw [ih wsl hlen]
          simp [denseDot]

/-- The sparse dot product of the sparsifications of two equally long dense
rows equals their dense dot product. -/
theorem sDot_sparsify_sparsify (x w : List ℚ) (h : x.length = w.length) :
    sDot (sparsifyRow x) (sparsifyRow w) = denseDot x w := by
  rw [sDot_sparsifyRow]
  simp only [valueAt_sparsifyRow]
  exact denseDot_eq_range_sum x w h

/-- Argument list of the external SGD kernel, in the positional order of the
`plain_sgd` call sites in `stochastic_gradient.py`.
Modelled from the spec: `plain_sgd` (module `sgd_fast_sparse`) is a compiled
external routine whose source is not part of this repository; the spec
declares it "a pure function taking (initial weights, initial intercept, loss
selector, penalty selector, alpha, rho, sparse matrix arrays, labels,
iteration count, intercept flag, verbosity, shuffle flag, seed, two per-class
weights, per-sample weights, learning-rate selector, eta0, power_t) →
(updated weights, updated intercept)". -/
structure KernelArgs where
  weights : List ℚ
  intercept : ℚ
  loss_function : ℕ
  penalty_type : ℕ
  alpha : ℚ
  rho : ℚ
  X_data : List ℚ
  X_indices : List ℕ
  X_indptr : List ℕ
  y : List ℚ
  n_iter : ℕ
  fit_intercept : ℕ
  verbose : ℕ
  shuffle : ℕ
  seed : ℤ
  weight_pos : ℚ
  weight_neg : ℚ
  sample_weight : List ℚ
  learning_rate : ℕ
  eta0 : ℚ
  power_t : ℚ

/-- An abstract total SGD kernel: (updated weights, updated intercept). -/
abbrev Kernel := KernelArgs → List ℚ × ℚ

/-- An abstract fallible SGD kernel, for the paths where kernel failure and
its propagation matter (the one-vs-all dispatch). -/
abbrev KernelE := KernelArgs → Except String (List ℚ × ℚ)

/-- A feature-matrix argument: dense, or already in compressed-row form.
Every entry point first converts a dense argument with
`sparse.csr_matrix(X)` (after an `issparse` check in the predict path). -/
inductive MatInput where
  | dense (A : List (List ℚ))
  | sparseMat (m : CSR)

/-- `sparse.csr_matrix(X)`: identity on an already sparse matrix. -/
def toCSR : MatInput → CSR
  | .dense A => csrFromDense A
  | .sparseMat m => m

/-- `if x then 1 else 0` — the `int(...)` coercions applied to the boolean
flags at the kernel call sites. -/
def boolToNat (b : Bool) : ℕ := if b then 1 else 0

/-- State of `SGDClassifier` as far as this module reads and writes it.
`coef_` is kept in its two-dimensional form (for a binary classifier it has a
single row, which is the one-dimensional weight buffer the base class
initialises and the fit passes to the kernel);
`intercept_` holds one scalar per weight row. -/
structure ClfState where
  coef_ : List (List ℚ)
  intercept_ : List ℚ
  sparse_coef_ : Option CSR
  classes : List ℚ
  class_weight : List ℚ
  sample_weight : List ℚ
  loss_function : ℕ
  penalty_type : ℕ
  learning_rate_code : ℕ
  alpha : ℚ
  rho : ℚ
  eta0 : ℚ
  power_t : ℚ
  n_iter : ℕ
  fit_intercept : Bool
  verbose : ℕ
  shuffle : Bool
  seed : ℤ
  n_jobs : ℤ
  deriving Repr, DecidableEq

/-- `SGDClassifier._set_coef` on a non-`None` argument: store `coef_` and
rebuild `sparse_coef_` from it.  (The `None` branch, which clears both
attributes, is never taken by the fit paths modelled here.) -/
def setCoef (st : ClfState) (c : List (List ℚ)) : ClfState :=
  { st with coef_ := c, sparse_coef_ := some (csrFromDense c) }

/-- The label re-encoding of `_fit_binary`: start from `ones * -1.0`, then
set the samples equal to `classes[1]` to `+1.0`. -/
def binaryLabels (classes y : List ℚ) : List ℚ :=
  y.map (fun yi => if yi = classes.getD 1 0 then 1 else -1)

/-- The label re-encoding of `_train_ova_classifier` for class label `c`:
start from `ones * -1.0`, then set the samples equal to `c` to `+1.0`. -/
def ovaLabels (c : ℚ) (y : List ℚ) : List ℚ :=
  y.map (fun yi => if yi = c then 1 else -1)

/-- The kernel argument list built by `_fit_binary`, field by field in the
positional order of its `plain_sgd` call. -/
def binArgs (st : ClfState) (Xc : CSR) (y : List ℚ) : KernelArgs where
  weights := st.coef_.flatten
  intercept := st.intercept_.getD 0 0
  loss_function := st.loss_function
  penalty_type := st.penalty_type
  alpha := st.alpha
  rho := st.rho
  X_data := Xc.data
  X_indices := Xc.indices
  X_indptr := Xc.indptr
  y := binaryLabels st.classes y
  n_iter := st.n_iter
  fit_intercept := boolToNat st.fit_intercept
  verbose := st.verbose
  shuffle := boolToNat st.shuffle
  seed := st.seed
  weight_pos := st.class_weight.getD 1 0
  weight_neg := st.class_weight.getD 0 0
  sample_weight := st.sample_weight
  learning_rate := st.learning_rate_code
  eta0 := st.eta0
  power_t := st.power_t

/-- `SGDClassifier._fit_binary`.  The kernel is the abstract pure function
the spec declares.  The source then runs
`self._set_coef(np.atleast_2d(self.coef_))` — on the weight array it passed
in, not on the kernel's returned `coef_`, so with a pure kernel the returned
weights are discarded and only the returned intercept is stored
(`self.intercept_ = np.asarray(intercept_)`).  `np.atleast_2d` on the stored
two-dimensional `coef_` is the identity. -/
def fitBinary (k : Kernel) (st : ClfState) (X : MatInput) (y : List ℚ) :
    ClfState :=
  let Xc := toCSR X
  let res := k (binArgs st Xc y)
  let st1 := setCoef st st.coef_
  { st1 with intercept_ := [res.2] }

/-- The kernel argument list built by `_train_ova_classifier` for class index
`i` (its caller `_fit_multiclass` passes `self.classes[i]`, `self.coef_[i]`,
`self.intercept_[i]`, `self.class_weight[i]`; the second per-class weight is
the literal `1.0`). -/
def ovaArgs (st : ClfState) (Xc : CSR) (y : List ℚ) (i : ℕ) : KernelArgs where
  weights := st.coef_.getD i []
  intercept := st.intercept_.getD i 0
  loss_function := st.loss_function
  penalty_type := st.penalty_type
  alpha := st.alpha
  rho := st.rho
  X_data := Xc.data
  X_indices := Xc.indices
  X_indptr := Xc.indptr
  y := ovaLabels (st.classes.getD i 0) y
  n_iter := st.n_iter
  fit_intercept := boolToNat st.fit_intercept
  verbose := st.verbose
  shuffle := boolToNat st.shuffle
  seed := st.seed
  weight_pos := st.class_weight.getD i 0
  weight_neg := 1
  sample_weight := st.sample_weight
  learning_rate := st.learning_rate_code
  eta0 := st.eta0
  power_t := st.power_t

/-- `_train_ova_classifier`: one one-vs-all sub-fit; tags its result with its
class index `i`. -/
def trainOva (k : KernelE) (st : ClfState) (Xc : CSR) (y : List ℚ) (i : ℕ) :
    Except String (ℕ × List ℚ × ℚ) :=
  match k (ovaArgs st Xc y i) with
  | .error e => .error e
  | .ok r => .ok (i, r.1, r.2)

/-- The `Parallel` dispatch: run one task per input element, collect the
results in input order; the first failing task makes the whole dispatch
fail. -/
def collectOva {α : Type} (f : ℕ → Except String α) : List ℕ → Except String (List α)
  | [] => .ok []
  | i :: rest =>
      match f i with
      | .error e => .error e
      | .ok r =>
          match collectOva f rest with
          | .error e => .error e
          | .ok rs => .ok (r :: rs)

/-- The result write-back loop of `_fit_multiclass`:
`for i, coef, intercept in res: self.coef_[i] = coef; self.intercept_[i] = intercept`. -/
def writeback (coef : List (List ℚ)) (icept : List ℚ) :
    List (ℕ × List ℚ × ℚ) → List (List ℚ) × List ℚ
  | [] => (coef, icept)
  | (i, w, b) :: rest => writeback (coef.set i w) (icept.set i b) rest

/-- `SGDClassifier._fit_multiclass`: dispatch one `_train_ova_classifier`
task per class, write every result back at its own class index, then rebuild
`sparse_coef_` from the updated `coef_` (the final
`self.intercept_ = self.intercept_` of the source is a no-op). -/
def fitMulticlass (k : KernelE) (st : ClfState) (X : MatInput) (y : List ℚ) :
    Except String ClfState :=
  let Xc := toCSR X
  match collectOva (fun i => trainOva k st Xc y i) (List.range st.classes.length) with
  | .error e => .error e
  | .ok res =>
      let wb := writeback st.coef_ st.intercept_ res
      .ok (setCoef { st with intercept_ := wb.2 } wb.1)

/-- Result of `decision_function`: a flat score vector (binary) or a score
matrix (multiclass). -/
inductive Scores where
  | flat (v : List ℚ)
  | mat (m : List (List ℚ))
  deriving Repr, DecidableEq

/-- `SGDClassifier.decision_function`: convert a dense argument to CSR,
compute `np.dot(X, sparse_coef_.T).todense() + intercept_` (entry `(s, kk)`
is the sparse dot product of sample row `s` with weight row `kk`, plus the
broadcast intercept `kk`), then `np.ravel` the scores iff there are exactly
two classes.  On an unfitted model the source raises an attribute error;
here that case returns an empty score vector and is excluded by the
theorems' fitted-model hypotheses. -/
def decisionFunction (st : ClfState) (X : MatInput) : Scores :=
  let Xc := toCSR X
  match st.sparse_coef_ with
  | none => .flat []
  | some W =>
      let scores := (List.range Xc.shape.1).map (fun s =>
        (List.range W.shape.1).map (fun kk =>
          sDot (rowPairs Xc s) (rowPairs W kk) + st.intercept_.getD kk 0))
      if st.classes.length = 2 then .flat scores.flatten else .mat scores

/-- State of `SGDRegressor` as far as this module reads and writes it:
a single one-dimensional weight vector and a single intercept. -/
structure RegState where
  coef_ : List ℚ
  intercept_ : ℚ
  sparse_coef_ : Option CSR
  sample_weight : List ℚ
  loss_function : ℕ
  penalty_type : ℕ
  learning_rate_code : ℕ
  alpha : ℚ
  rho : ℚ
  eta0 : ℚ
  power_t : ℚ
  n_iter : ℕ
  fit_intercept : Bool
  verbose : ℕ
  shuffle : Bool
  seed : ℤ
  deriving Repr, DecidableEq

/-- `SGDRegressor._set_coef` on a non-`None` argument: store the
one-dimensional `coef_` and rebuild `sparse_coef_` from it
(`sparse.csr_matrix` of a one-dimensional vector is the 1×n matrix whose
single row is that vector). -/
def regSetCoef (st : RegState) (c : List ℚ) : RegState :=
  { st with coef_ := c, sparse_coef_ := some (csrFromDense [c]) }

/-- The kernel argument list built by `_fit_regressor`: the raw target
vector `y` with no re-encoding, and both per-class weights the literal
`1.0`. -/
def regArgs (st : RegState) (Xc : CSR) (y : List ℚ) : KernelArgs where
  weights := st.coef_
  intercept := st.intercept_
  loss_function := st.loss_function
  penalty_type := st.penalty_type
  alpha := st.alpha
  rho := st.rho
  X_data := Xc.data
  X_indices := Xc.indices
  X_indptr := Xc.indptr
  y := y
  n_iter := st.n_iter
  fit_intercept := boolToNat st.fit_intercept
  verbose := st.verbose
  shuffle := boolToNat st.shuffle
  seed := st.seed
  weight_pos := 1
  weight_neg := 1
  sample_weight := st.sample_weight
  learning_rate := st.learning_rate_code
  eta0 := st.eta0
  power_t := st.power_t

/-- `SGDRegressor._fit_regressor`: one kernel call on the raw targets, then
`self._set_coef(self.coef_)` (the weight array it passed in — with a pure
kernel the returned weights are discarded, as in `_fit_binary`) and
`self.intercept_ = np.asarray(intercept_)`. -/
def fitRegressor (k : Kernel) (st : RegState) (X : MatInput) (y : List ℚ) :
    RegState :=
  let Xc := toCSR X
  let res := k (regArgs st Xc y)
  let st1 := regSetCoef st st.coef_
  { st1 with intercept_ := res.2 }

/-- `SGDRegressor.predict`: the same score computation as
`decision_function`, always followed by `.ravel()`. -/
def regPredict (st : RegState) (X : MatInput) : List ℚ :=
  let Xc := toCSR X
  match st.sparse_coef_ with
  | none => []
  | some W =>
      ((List.range Xc.shape.1).map (fun s =>
        (List.range W.shape.1).map (fun kk =>
          sDot (rowPairs Xc s) (rowPairs W kk) + st.intercept_))).flatten

-- ### Supporting lemmas for the one-vs-all dispatch and write-back

theorem getD_map {α β : Type} (l : List α) (f : α → β) (i : ℕ) (dA : α) (dB : β)
    (h : i < l.length) : (l.map f).getD i dB = f (l.getD i dA) := by
  rw [List.getD_eq_getElem _ _ (by simpa using h), List.getD_eq_getElem _ _ h,
    List.getElem_map]

theorem getD_range (n i : ℕ) (h : i < n) : (List.range n).getD i 0 = i := by
  rw [List.getD_eq_getElem _ _ (by simpa using h)]
  simp

theorem getD_set_ne {α : Type} (l : List α) (i j : ℕ) (a d : α) (h : i ≠ j) :
    (l.set i a).getD j d = l.getD j d := by
  simp [List.getD_eq_getElem?_getD, List.getElem?_set_ne h]

theorem getD_set_self {α : Type} (l : List α) (i : ℕ) (a d : α) (h : i < l.length) :
    (l.set i a).getD i d = a := by
  simp [List.getD_eq_getElem?_getD, List.getElem?_set_self, h]

theorem getD_mem {α : Type} (l : List α) (i : ℕ) (d : α) (h : i < l.length) :
    l.getD i d ∈ l := by
  rw [List.getD_eq_getElem l d h]
  exact List.getElem_mem h

theorem collectOva_ok_length {α : Type} (f : ℕ → Except String α) :
    ∀ (l : List ℕ) (res : List α), collectOva f l = .ok res → res.length = l.length := by
  intro l
  induction l with
  | nil => intro res h; simp [collectOva] at h; simp [← h]
  | cons j rest ih =>
      intro res h
      cases hfj : f j with
      | error e => simp [collectOva, hfj] at h
      | ok r =>
          cases hrest : collectOva f rest with
          | error e => simp [collectOva, hfj, hrest] at h
          | ok rs =>
              simp [collectOva, hfj, hrest] at h
              subst h
              simp [ih rs hrest]

theorem collectOva_ok_getD {α : Type} (f : ℕ → Except String α) :
    ∀ (l : List ℕ) (res : List α), collectOva f l = .ok res →
      ∀ (d : α) (i : ℕ), i < l.length → f (l.getD i 0) = .ok (res.getD i d) := by
  intro l
  induction l with
  | nil => intro res _ d i hi; simp at hi
  | cons j rest ih =>
      intro res h d i hi
      cases hfj : f j with
      | error e => simp [collectOva, hfj] at h
      | ok r =>
          cases hrest : collectOva f rest with
          | error e => simp [collectOva, hfj, hrest] at h
          | ok rs =>
              simp [collectOva, hfj, hrest] at h
              subst h
              cases i with
              | zero => simpa using hfj
              | succ i' =>
                  have hi' : i' < rest.length := by simpa using hi
                  simpa using ih rs hrest d i' hi'

theorem collectOva_ok_mem {α : Type} (f : ℕ → Except String α) :
    ∀ (l : List ℕ) (res : List α), collectOva f l = .ok res →
      ∀ i ∈ l, ∃ r, f i = .ok r := by
  intro l
  induction l with
  | nil => intro res _ i hi; simp at hi
  | cons j rest ih =>
      intro res h i hi
      cases hfj : f j with
      | error e => simp [collectOva, hfj] at h
      | ok r =>
          cases hrest : collectOva f rest with
          | error e => simp [collectOva, hfj, hrest] at h
          | ok rs =>
              rcases List.mem_cons.mp hi with hij | hmem
              · exact ⟨r, hij ▸ hfj⟩
              · exact ih rs hrest i hmem

theorem trainOva_ok (k : KernelE) (st : ClfState) (Xc : CSR) (y : List ℚ)
    (i : ℕ) (t : ℕ × List ℚ × ℚ) (h : trainOva k st Xc y i = .ok t) :
    ∃ r, k (ovaArgs st Xc y i) = .ok r ∧ t = (i, r.1, r.2) := by
  cases hk : k (ovaArgs st Xc y i) with
  | error e => simp [trainOva, hk] at h
  | ok r =>
      simp [trainOva, hk] at h
      exact ⟨r, rfl, h.symm⟩

theorem collectOva_trainOva_fst (k : KernelE) (st : ClfState) (Xc : CSR)
    (y : List ℚ) :
    ∀ (l : List ℕ) (res : List (ℕ × List ℚ × ℚ)),
      collectOva (fun i => trainOva k st Xc y i) l = .ok res →
      res.map Prod.fst = l := by
  intro l
  induction l with
  | nil => intro res h; simp [collectOva] at h; simp [← h]
  | cons j rest ih =>
      intro res h
      cases hfj : trainOva k st Xc y j with
      | error e => simp [collectOva, hfj] at h
      | ok r =>
          cases hrest : collectOva (fun i => trainOva k st Xc y i) rest with
          | error e => simp [collectOva, hfj, hrest] at h
          | ok rs =>
              simp [collectOva, hfj, hrest] at h
              subst h
              obtain ⟨r', _, hr'⟩ := trainOva_ok k st Xc y j r hfj
              simp [hr', ih rs hrest]

theorem writeback_length :
    ∀ (res : List (ℕ × List ℚ × ℚ)) (c : List (List ℚ)) (b : List ℚ),
      (writeback c b res).1.length = c.length ∧
      (writeback c b res).2.length = b.length := by
  intro res
  induction res with
  | nil => intro c b; exact ⟨rfl, rfl⟩
  | cons hd rest ih =>
      intro c b
      obtain ⟨i, w, bb⟩ := hd
      have := ih (c.set i w) (b.set i bb)
      simpa [writeback] using this

theorem writeback_getD_not_mem :
    ∀ (res : List (ℕ × List ℚ × ℚ)) (c : List (List ℚ)) (b : List ℚ) (j : ℕ),
      j ∉ res.map Prod.fst →
      (writeback c b res).1.getD j [] = c.getD j [] ∧
      (writeback c b res).2.getD j 0 = b.getD j 0 := by
  intro res
  induction res with
  | nil => intro c b j _; exact ⟨rfl, rfl⟩
  | cons hd rest ih =>
      intro c b j hj
      obtain ⟨i, w, bb⟩ := hd
      have hij : i ≠ j := by
        intro h
        exact hj (by simp [h])
      have hrest : j ∉ rest.map Prod.fst := by
        intro h
        exact hj (by simp [h])
      have h2 := ih (c.set i w) (b.set i bb) j hrest
      rw [getD_set_ne c i j w [] hij] at h2
      rw [getD_set_ne b i j bb 0 hij] at h2
      exact ⟨by rw [writeback]; exact h2.1, by rw [writeback]; exact h2.2⟩

theorem writeback_getD_mem :
    ∀ (res : List (ℕ × List ℚ × ℚ)) (c : List (List ℚ)) (b : List ℚ)
      (i : ℕ) (w : List ℚ) (bb : ℚ),
      (res.map Prod.fst).Nodup → (i, w, bb) ∈ res →
      i < c.length → i < b.length →
      (writeback c b res).1.getD i [] = w ∧
      (writeback c b res).2.getD i 0 = bb := by
  intro res
  induction res with
  | nil => intro c b i w bb _ hmem; simp at hmem
  | cons hd rest ih =>
      intro c b i w bb hnd hmem hc hb
      obtain ⟨i0, w0, bb0⟩ := hd
      rw [List.map_cons] at hnd
      rcases List.mem_cons.mp hmem with heq | hmem'
      · injection heq with h1 h23
        injection h23 with h2 h3
        subst h1; subst h2; subst h3
        have hnot : i ∉ rest.map Prod.fst := by
          simpa using (List.nodup_cons.mp hnd).1
        have h4 := writeback_getD_not_mem rest (c.set i w) (b.set i bb) i hnot
        refine ⟨?_, ?_⟩
        · rw [writeback]
          rw [h4.1, getD_set_self _ _ _ _ hc]
        · rw [writeback]
          rw [h4.2, getD_set_self _ _ _ _ hb]
      · have hnd' : (rest.map Prod.fst).Nodup := (List.nodup_cons.mp hnd).2
        have h4 := ih (c.set i0 w0) (b.set i0 bb0) i w bb hnd' hmem'
          (by simpa using hc) (by simpa using hb)
        exact ⟨by rw [writeback]; exact h4.1, by rw [writeback]; exact h4.2⟩

theorem writeback_perm (res res' : List (ℕ × List ℚ × ℚ))
    (hperm : res.Perm res') :
    (res.map Prod.fst).Nodup →
    ∀ (c : List (List ℚ)) (b : List ℚ),
      writeback c b res = writeback c b res' := by
  induction hperm with
  | nil => intro _ c b; rfl
  | cons x l12 ih =>
      intro hnd c b
      obtain ⟨i, w, bb⟩ := x
      rw [List.map_cons] at hnd
      have hnd' := hnd.of_cons
      simp only [writeback]
      exact ih hnd' (c.set i w) (b.set i bb)
  | swap x y l =>
      intro hnd c b
      obtain ⟨i1, w1, b1⟩ := x
      obtain ⟨i2, w2, b2⟩ := y
      rw [List.map_cons, List.map_cons] at hnd
      have h21 := List.nodup_cons.mp hnd
      have hne : i2 ≠ i1 := by
        intro h
        exact h21.1 (by simp [h])
      simp only [writeback]
      rw [List.set_comm w2 w1 c hne, List.set_comm b2 b1 b hne]
  | trans p12 p23 ih12 ih23 =>
      intro hnd c b
      have hnd2 := (p12.map Prod.fst).nodup hnd
      rw [ih12 hnd c b, ih23 hnd2 c b]

-- ### Concrete fixtures used to instantiate the theorems

/-- A concrete fitted binary-classifier state. -/
def exClf : ClfState where
  coef_ := [[1, 2]]
  intercept_ := [3]
  sparse_coef_ := some (csrFromDense [[1, 2]])
  classes := [0, 1]
  class_weight := [1, 1]
  sample_weight := [1, 1]
  loss_function := 0
  penalty_type := 2
  learning_rate_code := 1
  alpha := 1 / 10000
  rho := 1
  eta0 := 0
  power_t := 1 / 2
  n_iter := 5
  fit_intercept := true
  verbose := 0
  shuffle := false
  seed := 0
  n_jobs := 1

/-- A concrete three-class classifier state with zero warm-start weights. -/
def exClf3 : ClfState where
  coef_ := [[0, 0], [0, 0], [0, 0]]
  intercept_ := [0, 0, 0]
  sparse_coef_ := some (csrFromDense [[0, 0], [0, 0], [0, 0]])
  classes := [4, 5, 6]
  class_weight := [1, 2, 3]
  sample_weight := [1, 1]
  loss_function := 0
  penalty_type := 2
  learning_rate_code := 1
  alpha := 1 / 10000
  rho := 1
  eta0 := 0
  power_t := 1 / 2
  n_iter := 5
  fit_intercept := true
  verbose := 0
  shuffle := false
  seed := 0
  n_jobs := 4

/-- A concrete fitted regressor state. -/
def exReg : RegState where
  coef_ := [2, 5]
  intercept_ := 7
  sparse_coef_ := some (csrFromDense [[2, 5]])
  sample_weight := [1]
  loss_function := 0
  penalty_type := 2
  learning_rate_code := 2
  alpha := 1 / 10000
  rho := 1
  eta0 := 1 / 100
  power_t := 1 / 4
  n_iter := 5
  fit_intercept := true
  verbose := 0
  shuffle := false
  seed := 0

/-- A concrete pure kernel: shifts every weight and the intercept by one. -/
def exKernel : Kernel := fun a => (a.weights.map (· + 1), a.intercept + 1)

/-- A concrete always-succeeding fallible kernel: returns a weight pair and
an intercept read off the positive-class weight (arithmetic-free, so the
concrete one-vs-all fits below evaluate by definitional reduction; different
per-class weights give visibly different per-class results). -/
def exKernelE : KernelE :=
  fun a => .ok ([a.weight_pos, a.weight_pos], a.weight_pos)

/-- A kernel whose every call fails (models numerical divergence). -/
def divergingKernel : KernelE := fun _ => .error "diverged"

/-- `Except.isOk` specialised to fit results. -/
def isOkResult : Except String ClfState → Bool
  | .ok _ => true
  | .error _ => false

-- ### Claims

/-- C10: in every one-vs-all sub-fit the negative-class weight passed to the
SGD kernel is the constant `1.0` and only the positive class's configured
weight `class_weight[i]` is forwarded, whereas the binary fit path forwards
both `class_weight[1]` (positive slot) and `class_weight[0]` (negative
slot). -/
theorem ova_weight_neg_constant_one (st : ClfState) (Xc : CSR) (y : List ℚ)
    (i : ℕ) :
    (ovaArgs st Xc y i).weight_neg = 1 ∧
    (ovaArgs st Xc y i).weight_pos = st.class_weight.getD i 0 ∧
    (binArgs st Xc y).weight_pos = st.class_weight.getD 1 0 ∧
    (binArgs st Xc y).weight_neg = st.class_weight.getD 0 0 :=
  ⟨rfl, rfl, rfl, rfl⟩

/-- C3: for a binary fit (two stored class values) the label vector passed
to the SGD kernel has one entry per sample, mapping each sample equal to the
second class value `classes[1]` to `+1.0` and every other sample to
`-1.0`. -/
theorem binArgs_label_mapping (st : ClfState) (Xc : CSR) (y : List ℚ)
    (h2 : st.classes.length = 2) :
    ((binArgs st Xc y).y).length = y.length ∧
    ∀ i, i < y.length →
      ((binArgs st Xc y).y).getD i 0 =
        if y.getD i 0 = st.classes.getD 1 0 then 1 else -1 := by
  refine ⟨by simp [binArgs, binaryLabels], ?_⟩
  intro i hi
  show (binaryLabels st.classes y).getD i 0 = _
  unfold binaryLabels
  rw [getD_map y _ i 0 0 hi]

theorem binArgs_label_mapping_witness :
    exClf.classes.length = 2 ∧
    (((binArgs exClf (csrFromDense []) [0, 1, 5]).y).length =
        ([0, 1, 5] : List ℚ).length ∧
      ∀ i, i < ([0, 1, 5] : List ℚ).length →
        ((binArgs exClf (csrFromDense []) [0, 1, 5]).y).getD i 0 =
          if ([0, 1, 5] : List ℚ).getD i 0 = exClf.classes.getD 1 0
          then 1 else -1) :=
  ⟨by decide, binArgs_label_mapping exClf (csrFromDense []) [0, 1, 5] (by decide)⟩

/-- C7: the regressor fit passes the raw target vector to the kernel without
re-encoding, passes the two per-class weights as the constants `1.0` and
`1.0`, warm-starts from the single stored weight vector and intercept (the
state carries exactly one of each — no one-vs-all), and `coef_` keeps its
one-dimensional shape (and length) after the fit. -/
theorem regArgs_raw_targets_unit_weights (k : Kernel) (st : RegState)
    (X : MatInput) (y : List ℚ) :
    (regArgs st (toCSR X) y).y = y ∧
    (regArgs st (toCSR X) y).weight_pos = 1 ∧
    (regArgs st (toCSR X) y).weight_neg = 1 ∧
    (regArgs st (toCSR X) y).weights = st.coef_ ∧
    (regArgs st (toCSR X) y).intercept = st.intercept_ ∧
    (fitRegressor k st X y).coef_.length = st.coef_.length :=
  ⟨rfl, rfl, rfl, rfl, rfl, rfl⟩

/-- C2 (refuting the claimed storage of the kernel result): with the kernel
as the pure function the spec declares it to be, `_fit_binary` runs
`self._set_coef(np.atleast_2d(self.coef_))`, i.e. it stores the pre-call
weight array and discards the kernel's returned weight vector; only the
returned intercept is stored.  At this concrete input the kernel returns
weights `[2, 3]` yet the fitted `coef_` remains `[[1, 2]]`, while the
intercept and the `sparse_coef_` rebuild behave as claimed. -/
theorem fitBinary_discards_kernel_weights :
    (exKernel (binArgs exClf (toCSR (.dense [[1, 0], [0, 1]])) [0, 1])).1 =
      [2, 3] ∧
    (fitBinary exKernel exClf (.dense [[1, 0], [0, 1]]) [0, 1]).coef_ =
      [[1, 2]] ∧
    (fitBinary exKernel exClf (.dense [[1, 0], [0, 1]]) [0, 1]).coef_ ≠
      [(exKernel (binArgs exClf (toCSR (.dense [[1, 0], [0, 1]])) [0, 1])).1] ∧
    (fitBinary exKernel exClf (.dense [[1, 0], [0, 1]]) [0, 1]).intercept_ =
      [(exKernel (binArgs exClf (toCSR (.dense [[1, 0], [0, 1]])) [0, 1])).2] ∧
    (fitBinary exKernel exClf (.dense [[1, 0], [0, 1]]) [0, 1]).sparse_coef_ =
      some (csrFromDense
        (fitBinary exKernel exClf (.dense [[1, 0], [0, 1]]) [0, 1]).coef_) := by
  refine ⟨?_, by decide, ?_, rfl, by decide⟩
  · norm_num [exKernel, binArgs, exClf]
  · norm_num [fitBinary, setCoef, exKernel, binArgs, exClf]

/-- C9: `decision_function` and `predict` are pure with respect to the
stored model state: in this embedding they return scores without producing
a new state, and their output depends only on the fields they read
(`sparse_coef_`, `intercept_`, and the class list for the ravel decision) —
two states agreeing on those fields give identical output on every input. -/
theorem decision_predict_frame (st1 st2 : ClfState) (rs1 rs2 : RegState)
    (X : MatInput)
    (hW : st1.sparse_coef_ = st2.sparse_coef_)
    (hb : st1.intercept_ = st2.intercept_)
    (hc : st1.classes = st2.classes)
    (hrW : rs1.sparse_coef_ = rs2.sparse_coef_)
    (hrb : rs1.intercept_ = rs2.intercept_) :
    decisionFunction st1 X = decisionFunction st2 X ∧
    regPredict rs1 X = regPredict rs2 X := by
  constructor
  · unfold decisionFunction
    rw [hW, hb, hc]
  · unfold regPredict
    rw [hrW, hrb]

theorem decision_predict_frame_witness :
    exClf.sparse_coef_ = ({ exClf with alpha := 5 } : ClfState).sparse_coef_ ∧
    exClf.intercept_ = ({ exClf with alpha := 5 } : ClfState).intercept_ ∧
    exClf.classes = ({ exClf with alpha := 5 } : ClfState).classes ∧
    exReg.sparse_coef_ = ({ exReg with eta0 := 9 } : RegState).sparse_coef_ ∧
    exReg.intercept_ = ({ exReg with eta0 := 9 } : RegState).intercept_ ∧
    (decisionFunction exClf (.dense [[1, 1]]) =
        decisionFunction { exClf with alpha := 5 } (.dense [[1, 1]]) ∧
      regPredict exReg (.dense [[1, 1]]) =
        regPredict { exReg with eta0 := 9 } (.dense [[1, 1]])) :=
  ⟨rfl, rfl, rfl, rfl, rfl,
    decision_predict_frame exClf { exClf with alpha := 5 }
      exReg { exReg with eta0 := 9 } (.dense [[1, 1]]) rfl rfl rfl rfl rfl⟩

/-- C8: if the kernel call of any one-vs-all sub-fit fails, the whole
multiclass fit call fails: `fitMulticlass` produces an error and no state at
all, so no per-class write-back happens and the caller's `coef_`,
`intercept_`, `sparse_coef_` stay as they were. -/
theorem fitMulticlass_subfit_failure_fatal (k : KernelE) (st : ClfState)
    (X : MatInput) (y : List ℚ) (i : ℕ) (e : String)
    (hi : i < st.classes.length)
    (hfail : k (ovaArgs st (toCSR X) y i) = .error e) :
    isOkResult (fitMulticlass k st X y) = false := by
  cases hres : collectOva (fun j => trainOva k st (toCSR X) y j)
      (List.range st.classes.length) with
  | error e2 => simp [fitMulticlass, hres, isOkResult]
  | ok res =>
      exfalso
      obtain ⟨r, hr⟩ := collectOva_ok_mem _ _ res hres i (List.mem_range.mpr hi)
      rw [trainOva, hfail] at hr
      exact absurd hr (by simp)

theorem fitMulticlass_subfit_failure_fatal_witness :
    (0 < exClf3.classes.length ∧
      divergingKernel (ovaArgs exClf3 (toCSR (.dense [[1, 0]])) [4] 0) =
        .error "diverged") ∧
    isOkResult (fitMulticlass divergingKernel exClf3 (.dense [[1, 0]]) [4]) =
      false :=
  ⟨⟨by decide, rfl⟩,
    fitMulticlass_subfit_failure_fatal divergingKernel exClf3
      (.dense [[1, 0]]) [4] 0 "diverged" (by decide) rfl⟩

/-- The concrete multiclass fit result of `exKernelE` on `exClf3`. -/
def exSt3' : ClfState :=
  setCoef { exClf3 with intercept_ := [1, 2, 3] } [[1, 1], [2, 2], [3, 3]]

/-- The per-class results `exKernelE` produces on `exClf3`, in class-index
order, and a transposition of them. -/
def exRes : List (ℕ × List ℚ × ℚ) :=
  [(0, [1, 1], 1), (1, [2, 2], 2), (2, [3, 3], 3)]

def exResSwapped : List (ℕ × List ℚ × ℚ) :=
  [(1, [2, 2], 2), (0, [1, 1], 1), (2, [3, 3], 3)]

/-- C4: in a successful multiclass (one-vs-all) fit, the sub-fit for class
index `i` is invoked with warm-start weights `coef_[i]` and intercept
`intercept_[i]` and with a label vector mapping samples equal to
`classes[i]` to `+1.0` and all other samples to `-1.0`, and the kernel's
result for index `i` is exactly what ends up at `coef_[i]` /
`intercept_[i]` of the fitted state. -/
theorem fitMulticlass_per_class_results (k : KernelE) (st : ClfState)
    (X : MatInput) (y : List ℚ) (st' : ClfState) (i : ℕ)
    (hK : st.coef_.length = st.classes.length)
    (hKb : st.intercept_.length = st.classes.length)
    (hi : i < st.classes.length)
    (hok : fitMulticlass k st X y = .ok st') :
    k (ovaArgs st (toCSR X) y i) =
      .ok (st'.coef_.getD i [], st'.intercept_.getD i 0) ∧
    (ovaArgs st (toCSR X) y i).weights = st.coef_.getD i [] ∧
    (ovaArgs st (toCSR X) y i).intercept = st.intercept_.getD i 0 ∧
    (ovaArgs st (toCSR X) y i).y.length = y.length ∧
    ∀ j, j < y.length → (ovaArgs st (toCSR X) y i).y.getD j 0 =
      if y.getD j 0 = st.classes.getD i 0 then 1 else -1 := by
  cases hres : collectOva (fun j => trainOva k st (toCSR X) y j)
      (List.range st.classes.length) with
  | error e => simp [fitMulticlass, hres] at hok
  | ok res =>
      simp only [fitMulticlass, hres] at hok
      rw [Except.ok.injEq] at hok
      subst hok
      have hfi := collectOva_ok_getD _ _ res hres (0, [], 0) i (by simpa using hi)
      rw [getD_range _ _ hi] at hfi
      obtain ⟨r, hkr, hres_i⟩ := trainOva_ok k st (toCSR X) y i _ hfi
      have hfst := collectOva_trainOva_fst k st (toCSR X) y _ res hres
      have hnd : (res.map Prod.fst).Nodup := by
        rw [hfst]; exact List.nodup_range _
      have hlen : res.length = st.classes.length := by
        have := collectOva_ok_length _ _ res hres
        simpa using this
      have hmem : (i, r.1, r.2) ∈ res := by
        rw [← hres_i]
        exact getD_mem res i _ (by omega)
      have hwb := writeback_getD_mem res st.coef_ st.intercept_ i r.1 r.2
        hnd hmem (by omega) (by omega)
      refine ⟨?_, rfl, rfl, by simp [ovaArgs, ovaLabels], ?_⟩
      · show k (ovaArgs st (toCSR X) y i) = .ok
          ((writeback st.coef_ st.intercept_ res).1.getD i [],
           (writeback st.coef_ st.intercept_ res).2.getD i 0)
        rw [hwb.1, hwb.2, hkr]
      · intro j hj
        show (ovaLabels (st.classes.getD i 0) y).getD j 0 = _
        unfold ovaLabels
        rw [getD_map y _ j 0 0 hj]

theorem fitMulticlass_per_class_results_witness :
    (1 < exClf3.classes.length ∧
      exClf3.coef_.length = exClf3.classes.length ∧
      exClf3.intercept_.length = exClf3.classes.length ∧
      fitMulticlass exKernelE exClf3 (.dense [[1, 0], [0, 1]]) [4, 5] =
        .ok exSt3') ∧
    (exKernelE (ovaArgs exClf3 (toCSR (.dense [[1, 0], [0, 1]])) [4, 5] 1) =
      .ok (exSt3'.coef_.getD 1 [], exSt3'.intercept_.getD 1 0) ∧
    (ovaArgs exClf3 (toCSR (.dense [[1, 0], [0, 1]])) [4, 5] 1).weights =
      exClf3.coef_.getD 1 [] ∧
    (ovaArgs exClf3 (toCSR (.dense [[1, 0], [0, 1]])) [4, 5] 1).intercept =
      exClf3.intercept_.getD 1 0 ∧
    (ovaArgs exClf3 (toCSR (.dense [[1, 0], [0, 1]])) [4, 5] 1).y.length =
      ([4, 5] : List ℚ).length ∧
    ∀ j, j < ([4, 5] : List ℚ).length →
      (ovaArgs exClf3 (toCSR (.dense [[1, 0], [0, 1]])) [4, 5] 1).y.getD j 0 =
        if ([4, 5] : List ℚ).getD j 0 = exClf3.classes.getD 1 0
        then 1 else -1) :=
  ⟨⟨by decide, by decide, by decide, rfl⟩,
    fitMulticlass_per_class_results exKernelE exClf3 (.dense [[1, 0], [0, 1]])
      [4, 5] exSt3' 1 (by decide) (by decide) (by decide) rfl⟩

/-- C5: the per-class results of a successful one-vs-all dispatch may be
written back in any order: every permutation of the collected result list
produces the same final (`coef_`, `intercept_`) pair, because each result is
written at its own class index; and that pair is exactly what
`fitMulticlass` stores. -/
theorem fitMulticlass_writeback_perm_invariant (k : KernelE) (st : ClfState)
    (X : MatInput) (y : List ℚ) (res res' : List (ℕ × List ℚ × ℚ))
    (hok : collectOva (fun i => trainOva k st (toCSR X) y i)
      (List.range st.classes.length) = .ok res)
    (hperm : res.Perm res') :
    writeback st.coef_ st.intercept_ res' =
      writeback st.coef_ st.intercept_ res ∧
    fitMulticlass k st X y = .ok (setCoef
      { st with intercept_ := (writeback st.coef_ st.intercept_ res').2 }
      (writeback st.coef_ st.intercept_ res').1) := by
  have hfst := collectOva_trainOva_fst k st (toCSR X) y _ res hok
  have hnd : (res.map Prod.fst).Nodup := by
    rw [hfst]; exact List.nodup_range _
  have heq := writeback_perm res res' hperm hnd st.coef_ st.intercept_
  refine ⟨heq.symm, ?_⟩
  rw [← heq]
  simp [fitMulticlass, hok]

theorem fitMulticlass_writeback_perm_invariant_witness :
    (collectOva (fun i => trainOva exKernelE exClf3
        (toCSR (.dense [[1, 0], [0, 1]])) [4, 5] i)
      (List.range exClf3.classes.length) = .ok exRes ∧
     exRes.Perm exResSwapped) ∧
    (writeback exClf3.coef_ exClf3.intercept_ exResSwapped =
        writeback exClf3.coef_ exClf3.intercept_ exRes ∧
      fitMulticlass exKernelE exClf3 (.dense [[1, 0], [0, 1]]) [4, 5] = .ok
        (setCoef { exClf3 with intercept_ :=
            (writeback exClf3.coef_ exClf3.intercept_ exResSwapped).2 }
          (writeback exClf3.coef_ exClf3.intercept_ exResSwapped).1)) :=
  ⟨⟨rfl, by unfold exRes exResSwapped; exact List.Perm.swap _ _ _⟩,
    fitMulticlass_writeback_perm_invariant exKernelE exClf3
      (.dense [[1, 0], [0, 1]]) [4, 5] exRes exResSwapped rfl
      (by unfold exRes exResSwapped; exact List.Perm.swap _ _ _)⟩

/-- C6: after each fit operation (binary, multiclass, regressor) the stored
`sparse_coef_` is exactly the CSR encoding of the stored `coef_`, and
densifying it recovers `coef_` exactly (rectangularity of the dense weight
rows is what numpy guarantees for these arrays; for the regressor the
one-dimensional `coef_` is encoded as the single row of a 1×n matrix). -/
theorem fit_sparse_coef_roundtrip (k : Kernel) (ke : KernelE)
    (st : ClfState) (rst : RegState) (X : MatInput) (y : List ℚ)
    (st' : ClfState)
    (hmc : fitMulticlass ke st X y = .ok st')
    (hrectB : ∀ r ∈ st.coef_, r.length = (st.coef_.headD []).length)
    (hrectM : ∀ r ∈ st'.coef_, r.length = (st'.coef_.headD []).length) :
    ((fitBinary k st X y).sparse_coef_ =
        some (csrFromDense (fitBinary k st X y).coef_) ∧
      csrToDense (csrFromDense (fitBinary k st X y).coef_) =
        (fitBinary k st X y).coef_) ∧
    (st'.sparse_coef_ = some (csrFromDense st'.coef_) ∧
      csrToDense (csrFromDense st'.coef_) = st'.coef_) ∧
    ((fitRegressor k rst X y).sparse_coef_ =
        some (csrFromDense [(fitRegressor k rst X y).coef_]) ∧
      csrToDense (csrFromDense [(fitRegressor k rst X y).coef_]) =
        [(fitRegressor k rst X y).coef_]) := by
  refine ⟨⟨rfl, ?_⟩, ⟨?_, csrToDense_csrFromDense st'.coef_ hrectM⟩,
    ⟨rfl, ?_⟩⟩
  · have hcoef : (fitBinary k st X y).coef_ = st.coef_ := rfl
    rw [hcoef]
    exact csrToDense_csrFromDense st.coef_ hrectB
  · cases hres : collectOva (fun j => trainOva ke st (toCSR X) y j)
        (List.range st.classes.length) with
    | error e => simp [fitMulticlass, hres] at hmc
    | ok res =>
        simp only [fitMulticlass, hres] at hmc
        rw [Except.ok.injEq] at hmc
        rw [← hmc]
        rfl
  · apply csrToDense_csrFromDense
    intro r hr
    rw [List.mem_singleton] at hr
    subst hr
    rfl

theorem fit_sparse_coef_roundtrip_witness :
    (fitMulticlass exKernelE exClf3 (.dense [[1, 0], [0, 1]]) [4, 5] =
        .ok exSt3' ∧
      (∀ r ∈ exClf3.coef_, r.length = (exClf3.coef_.headD []).length) ∧
      (∀ r ∈ exSt3'.coef_, r.length = (exSt3'.coef_.headD []).length)) ∧
    (((fitBinary exKernel exClf3 (.dense [[1, 0], [0, 1]]) [4, 5]).sparse_coef_ =
        some (csrFromDense
          (fitBinary exKernel exClf3 (.dense [[1, 0], [0, 1]]) [4, 5]).coef_) ∧
      csrToDense (csrFromDense
          (fitBinary exKernel exClf3 (.dense [[1, 0], [0, 1]]) [4, 5]).coef_) =
        (fitBinary exKernel exClf3 (.dense [[1, 0], [0, 1]]) [4, 5]).coef_) ∧
    (exSt3'.sparse_coef_ = some (csrFromDense exSt3'.coef_) ∧
      csrToDense (csrFromDense exSt3'.coef_) = exSt3'.coef_) ∧
    ((fitRegressor exKernel exReg (.dense [[1, 0], [0, 1]]) [4, 5]).sparse_coef_ =
        some (csrFromDense
          [(fitRegressor exKernel exReg (.dense [[1, 0], [0, 1]]) [4, 5]).coef_]) ∧
      csrToDense (csrFromDense
          [(fitRegressor exKernel exReg (.dense [[1, 0], [0, 1]]) [4, 5]).coef_]) =
        [(fitRegressor exKernel exReg (.dense [[1, 0], [0, 1]]) [4, 5]).coef_])) :=
  ⟨⟨rfl, by decide, by decide⟩,
    fit_sparse_coef_roundtrip exKernel exKernelE exClf3 exReg
      (.dense [[1, 0], [0, 1]]) [4, 5] exSt3' rfl (by decide) (by decide)⟩

-- ### Lemmas for the score computation

theorem flatten_map_singleton {α β : Type} (l : List α) (g : α → β) :
    (l.map (fun x => [g x])).flatten = l.map g := by
  induction l with
  | nil => rfl
  | cons x xs ih => simp [ih]

theorem range_map_zip {β : Type} (g : List ℚ → ℚ → β) :
    ∀ (C : List (List ℚ)) (b : List ℚ), b.length = C.length →
      (List.range C.length).map (fun kk => g (C.getD kk []) (b.getD kk 0)) =
        (C.zip b).map (fun p => g p.1 p.2) := by
  intro C
  induction C with
  | nil => intro b _; rfl
  | cons c cs ih =>
      intro b hb
      cases b with
      | nil => simp at hb
      | cons b0 bs =>
          rw [List.length_cons, range_map_cons]
          simp only [List.getD_cons_zero, List.getD_cons_succ]
          rw [ih bs (by simpa using hb)]
          simp

/-- The sparse score matrix `np.dot(X, W.T).todense() + intercept` computed
from the CSR encodings equals the dense matrix of row dot products plus the
broadcast intercepts. -/
theorem scoresMatrix_eq (A C : List (List ℚ)) (b : List ℚ) (nf : ℕ)
    (hA : ∀ r ∈ A, r.length = nf) (hC : ∀ r ∈ C, r.length = nf)
    (hb : b.length = C.length) :
    (List.range (csrFromDense A).shape.1).map (fun s =>
      (List.range (csrFromDense C).shape.1).map (fun kk =>
        sDot (rowPairs (csrFromDense A) s) (rowPairs (csrFromDense C) kk) +
          b.getD kk 0)) =
    A.map (fun x => (C.zip b).map (fun p => denseDot x p.1 + p.2)) := by
  have h1 : (csrFromDense A).shape.1 = A.length := rfl
  have h2 : (csrFromDense C).shape.1 = C.length := rfl
  rw [h1, h2]
  simp only [rowPairs_csrFromDense]
  rw [range_map_getD A [] (fun x => (List.range C.length).map (fun kk =>
    sDot (sparsifyRow x) (sparsifyRow (C.getD kk [])) + b.getD kk 0))]
  apply List.map_congr_left
  intro x hx
  rw [range_map_zip (fun c bb => sDot (sparsifyRow x) (sparsifyRow c) + bb) C b hb]
  apply List.map_congr_left
  intro p hp
  have hpC : p.1 ∈ C := (List.of_mem_zip hp).1
  rw [sDot_sparsify_sparsify x p.1 (by rw [hA x hx, hC p.1 hpC])]

theorem decisionFunction_some (st : ClfState) (X : MatInput) (W : CSR)
    (hW : st.sparse_coef_ = some W) :
    decisionFunction st X =
      if st.classes.length = 2
      then .flat ((List.range (toCSR X).shape.1).map (fun s =>
        (List.range W.shape.1).map (fun kk =>
          sDot (rowPairs (toCSR X) s) (rowPairs W kk) +
            st.intercept_.getD kk 0))).flatten
      else .mat ((List.range (toCSR X).shape.1).map (fun s =>
        (List.range W.shape.1).map (fun kk =>
          sDot (rowPairs (toCSR X) s) (rowPairs W kk) +
            st.intercept_.getD kk 0))) := by
  unfold decisionFunction
  rw [hW]

theorem regPredict_some (st : RegState) (X : MatInput) (W : CSR)
    (hW : st.sparse_coef_ = some W) :
    regPredict st X =
      ((List.range (toCSR X).shape.1).map (fun s =>
        (List.range W.shape.1).map (fun kk =>
          sDot (rowPairs (toCSR X) s) (rowPairs W kk) +
            st.intercept_))).flatten := by
  unfold regPredict
  rw [hW]

/-- C1: for a fitted model, the decision/prediction function computes
`scores = X · sparse_coef_ᵀ + intercept_` (entry `(s, kk)` is the dot
product of sample row `s` with dense weight row `kk` plus intercept `kk`):
in the binary case (two classes, one weight row) and the regression case the
result is a flat score list with one entry per sample; in the multiclass
case it is an `n_samples × n_classes` score matrix.  A dense input matrix is
converted to CSR first (`toCSR`), and the hypotheses describe exactly the
states the fit operations produce (`sparse_coef_` is the CSR encoding of the
dense weight rows). -/
theorem decision_predict_scores (st : ClfState) (rst : RegState)
    (M : MatInput) (A C : List (List ℚ)) (w : List ℚ) (nf : ℕ)
    (hM : toCSR M = csrFromDense A)
    (hA : ∀ r ∈ A, r.length = nf)
    (hC : ∀ r ∈ C, r.length = nf)
    (hW : st.sparse_coef_ = some (csrFromDense C))
    (hbK : st.intercept_.length = C.length)
    (hrW : rst.sparse_coef_ = some (csrFromDense [w]))
    (hw : w.length = nf) :
    (st.classes.length = 2 → C.length = 1 →
      decisionFunction st M = .flat
        (A.map (fun x => denseDot x (C.getD 0 []) + st.intercept_.getD 0 0)) ∧
      (A.map (fun x =>
        denseDot x (C.getD 0 []) + st.intercept_.getD 0 0)).length =
        A.length) ∧
    (st.classes.length ≠ 2 → C.length = st.classes.length →
      decisionFunction st M = .mat
        (A.map (fun x =>
          (C.zip st.intercept_).map (fun p => denseDot x p.1 + p.2))) ∧
      (A.map (fun x =>
        (C.zip st.intercept_).map (fun p => denseDot x p.1 + p.2))).length =
        A.length ∧
      ∀ row ∈ A.map (fun x =>
          (C.zip st.intercept_).map (fun p => denseDot x p.1 + p.2)),
        row.length = st.classes.length) ∧
    (regPredict rst M = A.map (fun x => denseDot x w + rst.intercept_) ∧
      (A.map (fun x => denseDot x w + rst.intercept_)).length = A.length) := by
  have hsc : (List.range (toCSR M).shape.1).map (fun s =>
      (List.range (csrFromDense C).shape.1).map (fun kk =>
        sDot (rowPairs (toCSR M) s) (rowPairs (csrFromDense C) kk) +
          st.intercept_.getD kk 0)) =
      A.map (fun x =>
        (C.zip st.intercept_).map (fun p => denseDot x p.1 + p.2)) := by
    rw [hM]
    exact scoresMatrix_eq A C st.intercept_ nf hA hC hbK
  refine ⟨?_, ?_, ?_⟩
  · intro h2 hc1
    obtain ⟨c0, hc0⟩ := List.length_eq_one.mp hc1
    have hb1 : st.intercept_.length = 1 := by rw [hbK, hc1]
    obtain ⟨b0, hb0⟩ := List.length_eq_one.mp hb1
    refine ⟨?_, by simp⟩
    rw [decisionFunction_some st M (csrFromDense C) hW, if_pos h2, hsc,
      hc0, hb0]
    have hfn : (fun (x : List ℚ) =>
        (([c0].zip [b0]).map (fun p => denseDot x p.1 + p.2))) =
        (fun x => [denseDot x c0 + b0]) := by
      funext x
      simp
    rw [hfn, flatten_map_singleton]
    simp
  · intro hne hKC
    refine ⟨?_, by simp, ?_⟩
    · rw [decisionFunction_some st M (csrFromDense C) hW, if_neg hne, hsc]
    · intro row hrow
      rw [List.mem_map] at hrow
      obtain ⟨x, _, hx⟩ := hrow
      rw [← hx]
      simp [hbK, hKC]
  · refine ⟨?_, by simp⟩
    rw [regPredict_some rst M (csrFromDense [w]) hrW, hM]
    have hshW : (csrFromDense [w]).shape.1 = 1 := rfl
    have hshA : (csrFromDense A).shape.1 = A.length := rfl
    rw [hshW, hshA]
    have hr1 : List.range 1 = [0] := rfl
    simp only [hr1, List.map_cons, List.map_nil,
      rowPairs_csrFromDense, List.getD_cons_zero]
    rw [range_map_getD A [] (fun x =>
      [sDot (sparsifyRow x) (sparsifyRow w) + rst.intercept_])]
    rw [flatten_map_singleton]
    apply List.map_congr_left
    intro x hx
    rw [sDot_sparsify_sparsify x w (by rw [hA x hx, hw])]

theorem decision_predict_scores_witness :
    (toCSR (.dense [[1, 1], [0, 0]]) = csrFromDense [[1, 1], [0, 0]] ∧
      exClf.sparse_coef_ = some (csrFromDense [[1, 2]]) ∧
      exReg.sparse_coef_ = some (csrFromDense [[2, 5]]) ∧
      exClf.intercept_.length = ([[1, 2]] : List (List ℚ)).length) ∧
    ((exClf.classes.length = 2 → ([[1, 2]] : List (List ℚ)).length = 1 →
      decisionFunction exClf (.dense [[1, 1], [0, 0]]) = .flat
        (([[1, 1], [0, 0]] : List (List ℚ)).map (fun x =>
          denseDot x (([[1, 2]] : List (List ℚ)).getD 0 []) +
            exClf.intercept_.getD 0 0)) ∧
      (([[1, 1], [0, 0]] : List (List ℚ)).map (fun x =>
        denseDot x (([[1, 2]] : List (List ℚ)).getD 0 []) +
          exClf.intercept_.getD 0 0)).length =
        ([[1, 1], [0, 0]] : List (List ℚ)).length) ∧
    (exClf.classes.length ≠ 2 →
        ([[1, 2]] : List (List ℚ)).length = exClf.classes.length →
      decisionFunction exClf (.dense [[1, 1], [0, 0]]) = .mat
        (([[1, 1], [0, 0]] : List (List ℚ)).map (fun x =>
          (([[1, 2]] : List (List ℚ)).zip exClf.intercept_).map
            (fun p => denseDot x p.1 + p.2))) ∧
      (([[1, 1], [0, 0]] : List (List ℚ)).map (fun x =>
        (([[1, 2]] : List (List ℚ)).zip exClf.intercept_).map
          (fun p => denseDot x p.1 + p.2))).length =
        ([[1, 1], [0, 0]] : List (List ℚ)).length ∧
      ∀ row ∈ ([[1, 1], [0, 0]] : List (List ℚ)).map (fun x =>
          (([[1, 2]] : List (List ℚ)).zip exClf.intercept_).map
            (fun p => denseDot x p.1 + p.2)),
        row.length = exClf.classes.length) ∧
    (regPredict exReg (.dense [[1, 1], [0, 0]]) =
        ([[1, 1], [0, 0]] : List (List ℚ)).map (fun x =>
          denseDot x [2, 5] + exReg.intercept_) ∧
      (([[1, 1], [0, 0]] : List (List ℚ)).map (fun x =>
        denseDot x [2, 5] + exReg.intercept_)).length =
        ([[1, 1], [0, 0]] : List (List ℚ)).length)) :=
  ⟨⟨rfl, rfl, rfl, by decide⟩,
    decision_predict_scores exClf exReg (.dense [[1, 1], [0, 0]])
      [[1, 1], [0, 0]] [[1, 2]] [2, 5] 2 rfl (by decide) (by decide) rfl
      (by decide) rfl (by decide)⟩
